import Mathlib

/-!
# Verification of the Shrdlite planner core (`src/Planner.ts`)

Shallow embedding of the Planner module of the shrdlite-course-project
repository.  The `Planner` module itself is the authority: its functions
(`plan`, `computeGoalFunction`, `testConjunctiveClause`, `testAtom`,
`heightDifference`, `neighbours`, `performAction`, `cloneState`) are
translated directly.  External collaborators that are not part of the
repository slice (`Astar.astar`, `Heuristics.State`,
`Heuristics.computeObjectPosition`, `Interpreter.canSupport`) are either
modelled from the spec (marked in their doc comments) or taken as
parameters.

TypeScript `null`/`undefined` for the held object is modelled by
`Option String`; machine numbers that stay non-negative in every guarded
use are modelled by `Nat`; TypeScript exceptions are modelled by
`Except`.  Indexing past the end of the `stacks` array in TypeScript
yields `undefined`, and the immediately following `.length` access
throws a `TypeError`; this is modelled by the `typeError` failure.
-/

namespace Planner

/-- Failure values.  `plannerError` is the source's `Planner.Error`
class (a name plus a message); `typeError` models the JavaScript
`TypeError` raised when the stack array indexing is `undefined` and its
`.length` is read. -/
inductive Err where
  | plannerError (message : String)
  | typeError
  deriving DecidableEq, Repr

end Planner

namespace Heuristics

/-- Modelled from the spec: `Heuristics.State` lives in `Heuristics.ts`,
which is not part of this repository slice; `Planner.ts` only constructs
and consumes it.  Per the spec's data model, a SearchState has `arm`
(gripper column index), `holding` (object name or none), and `stacks`
(for each column the object names from bottom to top). -/
structure State where
  arm : Nat
  holding : Option String
  stacks' : List (List String)
  deriving DecidableEq, Repr

/-- Modelled from the spec: the position of an operand as computed by
`Heuristics.computeObjectPosition` (in the missing `Heuristics.ts`).
The spec's design note asks for tagged variants: a position is the
held sentinel, the floor sentinel, or a column index plus a
height-from-floor. -/
inductive Position where
  | held : Position
  | floor : Position
  | inCol (stackNo heightNo : Nat) : Position
  deriving DecidableEq, Repr

/-- First column containing `name`, together with the height (index
from the bottom) of `name` inside it. -/
def findObject : List (List String) → String → Option (Nat × Nat)
  | [], _ => none
  | st :: rest, name =>
    match st.findIdx? (· = name) with
    | some h => some (0, h)
    | none => (findObject rest name).map (fun p => (p.1 + 1, p.2))

/-- Modelled from the spec: `Heuristics.computeObjectPosition` is in the
missing `Heuristics.ts`.  Per the spec (§4.3 step 1) an operand resolves
to the floor sentinel (the designated name `"floor"`), the held
sentinel, or a column index plus height-from-floor.  A name that is
none of these is outside the spec's description and is modelled as a
domain error. -/
def computeObjectPosition (s : State) (name : String) : Except Planner.Err Position :=
  if name = "floor" then .ok .floor
  else if s.holding = some name then .ok .held
  else
    match findObject s.stacks' name with
    | some p => .ok (.inCol p.1 p.2)
    | none => .error (.plannerError ("object not found: " ++ name))

end Heuristics

namespace Planner

open Heuristics (State Position)

/-- A neighbour record as produced by `performAction` (the shape of
`Astar.Neighb`): a successor state together with the action label that
reaches it. -/
structure Neighb (α : Type) where
  state : α
  action : String
  deriving DecidableEq, Repr

/-- `cloneState` from the source: a structural copy whose stack
sequences are fresh arrays (`slice()` per stack, modelled as a value
copy), while `arm` and `holding` are copied by value. -/
def cloneState (s : State) : State :=
  let rs := s.stacks'.map (fun stack => stack.drop 0)
  State.mk s.arm s.holding rs

theorem cloneState_eq (s : State) : cloneState s = s := by
  cases s with
  | mk arm holding stks =>
    simp [cloneState]

/-- `performAction` from the source, additionally returning the value
of the input state after the call (first component).  The source first
builds `newState := cloneState(state)` and every write targets
`newState`, so each arm returns the input unchanged.  `"p"` pops the
top of the stack under the arm into `holding`; `"d"` pushes `holding`
(when none, TypeScript would push `null`; modelled as pushing nothing —
that situation is never produced by `neighbours`) and clears it; an
unknown label throws `Planner.Error`. -/
def performActionMut (action : String) (state : State) : State × Except Err (Neighb State) :=
  let newState := cloneState state
  match action with
  | "l" => (state, .ok ⟨{ newState with arm := state.arm - 1 }, action⟩)
  | "r" => (state, .ok ⟨{ newState with arm := state.arm + 1 }, action⟩)
  | "p" =>
    let st := newState.stacks'.getD newState.arm []
    (state, .ok ⟨{ newState with
                    holding := st.getLast?,
                    stacks' := newState.stacks'.set newState.arm st.dropLast }, action⟩)
  | "d" =>
    let st := newState.stacks'.getD newState.arm []
    (state, .ok ⟨{ newState with
                    stacks' := newState.stacks'.set newState.arm (st ++ state.holding.toList),
                    holding := none }, action⟩)
  | _ => (state, .error (.plannerError ("ERROR: unknown action " ++ action)))

/-- The result component of `performActionMut`. -/
def performAction (action : String) (state : State) : Except Err (Neighb State) :=
  (performActionMut action state).2

/-- Reading `s.stacks'[i].length` in TypeScript: in range it yields the
stack, out of range the indexing yields `undefined` and the `.length`
access throws a `TypeError`. -/
def getStack (stks : List (List String)) (i : Nat) : Except Err (List String) :=
  match stks.get? i with
  | some st => .ok st
  | none => .error .typeError

/-- `neighbours` from the source.  `cs` is the external support
predicate (`canSupport`, delegated to `Interpreter.canSupport` over the
read-only object dictionary, both outside this repository slice).
Pushes, in order: move-left (if `arm > 0`), move-right (if
`arm < numStacks - 1`), then pick-up (empty gripper, non-empty stack)
or put-down (non-empty gripper; onto a non-empty stack only when the
support predicate allows it, onto the floor always). -/
def neighbours (cs : String → String → Bool) (s : State) :
    Except Err (List (Neighb State)) := do
  let numStacks := s.stacks'.length
  let result ← if 0 < s.arm then do
      pure [(← performAction "l" s)]
    else pure []
  let result ← if s.arm < numStacks - 1 then do
      pure (result ++ [(← performAction "r" s)])
    else pure result
  match s.holding with
  | none => do
    let currStack ← getStack s.stacks' s.arm
    if 0 < currStack.length then do
      pure (result ++ [(← performAction "p" s)])
    else
      pure result
  | some h => do
    let currStack ← getStack s.stacks' s.arm
    if 0 < currStack.length then
      let head := currStack.getD (currStack.length - 1) ""
      if cs h head then do
        pure (result ++ [(← performAction "d" s)])
      else
        pure result
    else do
      pure (result ++ [(← performAction "d" s)])

/-- The uniform cost function from the source: every transition costs 1. -/
def cost (_a _b : State) : Nat := 1

/-- A goal literal (`Interpreter.Literal`): polarity, relation tag, and
operand names, as consumed by `testAtom`. -/
structure Literal where
  pol : Bool
  rel : String
  args : List String
  deriving DecidableEq, Repr

/-- The `ret` closure of `testAtom`: a literal's raw result is negated
when the literal's polarity is false. -/
def polAdj (pol result : Bool) : Bool :=
  if pol then result else !result

/-- `heightDifference` from the source, over positions resolved by the
spec-modelled `Heuristics.computeObjectPosition`.  Checks, in source
order: either operand held gives `-1`; `above` on the floor is a
`Planner.Error`; `below` on the floor gives `height(above) + 1`; same
column gives the signed height difference; different columns give `-1`. -/
def heightDifference (s : State) (above below : String) : Except Err Int := do
  let a ← Heuristics.computeObjectPosition s above
  let b ← Heuristics.computeObjectPosition s below
  match a, b with
  | .held, _ => pure (-1)
  | _, .held => pure (-1)
  | .floor, _ =>
    throw (.plannerError "heightDiff: Floor cannot be above anything... Should never happen.")
  | .inCol _ hA, .floor => pure ((hA : Int) + 1)
  | .inCol sA hA, .inCol sB hB =>
    if sA = sB then pure ((hA : Int) - (hB : Int)) else pure (-1)

/-- `testAtom` from the source: `holding` compares the held object with
the first operand; `inside` falls through to `ontop` (height difference
exactly 1); `above` tests a strictly positive height difference; every
other relation tag throws a `Planner.Error` naming it. -/
def testAtom (s : State) (atom : Literal) : Except Err Bool :=
  match atom.rel with
  | "holding" => .ok (polAdj atom.pol (decide (s.holding = some (atom.args.getD 0 ""))))
  | "inside" => do
    let d ← heightDifference s (atom.args.getD 0 "") (atom.args.getD 1 "")
    pure (polAdj atom.pol (decide (d = 1)))
  | "ontop" => do
    let d ← heightDifference s (atom.args.getD 0 "") (atom.args.getD 1 "")
    pure (polAdj atom.pol (decide (d = 1)))
  | "above" => do
    let d ← heightDifference s (atom.args.getD 0 "") (atom.args.getD 1 "")
    pure (polAdj atom.pol (decide (0 < d)))
  | rel => .error (.plannerError ("!!! Unimplemented relation in testAtom: " ++ rel))

/-- `testConjunctiveClause` from the source: iterate the literals in
order; the first one that evaluates to false makes the clause false;
all true makes it true (errors propagate). -/
def testConjunctiveClause (s : State) : List Literal → Except Err Bool
  | [] => .ok true
  | atom :: rest => do
    if !(← testAtom s atom) then
      pure false
    else
      testConjunctiveClause s rest

/-- `computeGoalFunction` from the source: the compiled goal predicate
tests the conjunctive clauses in order and is true as soon as one of
them holds (errors propagate). -/
def computeGoalFunction (intprt : List (List Literal)) (s : State) : Except Err Bool :=
  match intprt with
  | [] => .ok false
  | c :: rest => do
    if (← testConjunctiveClause s c) then
      pure true
    else
      computeGoalFunction rest s

/-- An interpretation record (`Interpreter.Result`, an external input
type: `Interpreter.ts` is not part of this repository slice).  It
carries the interpretation `intp`; the source casts it to
`Planner.Result` and assigns the `plan` field in place, so the field is
modelled as an `Option` that is `none` until assigned. -/
structure IResult where
  intp : List (List Literal)
  plan : Option (List String)
  deriving DecidableEq, Repr

/-- The per-interpretation loop body of `plan`, with the external
search made explicit: `pi` stands for
`planInterpretation(·, currentState)`, whose body (goal compilation,
heuristic, the external `Astar.astar` call with node budget 10000, and
the shift of the synthetic start node) either returns an action-label
list or throws.  Returns the value of the input list after the loop
(first component: records processed before a failure have been mutated
in place) and the `plans` accumulator or the propagated failure
(second component). -/
def planMutGo (pi : List (List Literal) → Except Err (List String)) :
    List IResult → List IResult × Except Err (List IResult)
  | [] => ([], .ok [])
  | r :: rest =>
    match pi r.intp with
    | .error e => (r :: rest, .error e)
    | .ok p =>
      let r' : IResult := { r with plan := some p }
      let out := planMutGo pi rest
      (r' :: out.1,
       match out.2 with
       | .ok l => .ok (r' :: l)
       | .error e => .error e)

/-- `plan` from the source: run the loop over all interpretations; if
the resulting `plans` array is non-empty return it, otherwise throw
`Planner.Error "Found no plans"`.  The first component is the value of
the `interpretations` argument after the call (the source writes each
record's `plan` field through the input alias). -/
def plan (pi : List (List Literal) → Except Err (List String))
    (interpretations : List IResult) : List IResult × Except Err (List IResult) :=
  let out := planMutGo pi interpretations
  ( out.1,
    match out.2 with
    | .error e => .error e
    | .ok plans =>
      if plans.length ≠ 0 then .ok plans
      else .error (.plannerError "Found no plans") )

theorem exceptOk_bind {ε α β : Type} (a : α) (f : α → Except ε β) :
    (Except.ok a >>= f) = f a := rfl

theorem exceptError_bind {ε α β : Type} (e : ε) (f : α → Except ε β) :
    ((Except.error e : Except ε α) >>= f) = .error e := rfl

theorem exceptPure {ε α : Type} (a : α) : (pure a : Except ε α) = .ok a := rfl

theorem performActionMut_l (s : State) :
    performActionMut "l" s = (s, .ok ⟨{ s with arm := s.arm - 1 }, "l"⟩) := by
  simp [performActionMut, cloneState_eq]

theorem performActionMut_r (s : State) :
    performActionMut "r" s = (s, .ok ⟨{ s with arm := s.arm + 1 }, "r"⟩) := by
  simp [performActionMut, cloneState_eq]

theorem performActionMut_p (s : State) :
    performActionMut "p" s =
      (s, .ok ⟨{ s with
                  holding := (s.stacks'.getD s.arm []).getLast?,
                  stacks' := s.stacks'.set s.arm (s.stacks'.getD s.arm []).dropLast }, "p"⟩) := by
  simp [performActionMut, cloneState_eq]

theorem performActionMut_d (s : State) :
    performActionMut "d" s =
      (s, .ok ⟨{ s with
                  stacks' := s.stacks'.set s.arm ((s.stacks'.getD s.arm []) ++ s.holding.toList),
                  holding := none }, "d"⟩) := by
  simp [performActionMut, cloneState_eq]

theorem neighbours_none (cs : String → String → Bool) (s : State) (st : List String)
    (h0 : s.holding = none) (hst : s.stacks'.get? s.arm = some st) :
    neighbours cs s = .ok
      ((if 0 < s.arm then [⟨{ s with arm := s.arm - 1 }, "l"⟩] else [])
        ++ (if s.arm < s.stacks'.length - 1 then [⟨{ s with arm := s.arm + 1 }, "r"⟩] else [])
        ++ (if 0 < st.length then
              [⟨{ s with holding := st.getLast?,
                         stacks' := s.stacks'.set s.arm st.dropLast }, "p"⟩]
            else [])) := by
  have hst' : s.stacks'[s.arm]? = some st := by
    rw [← List.get?_eq_getElem?]; exact hst
  by_cases h1 : 0 < s.arm <;> by_cases h2 : s.arm < s.stacks'.length - 1 <;>
    by_cases h3 : 0 < st.length <;>
      simp [neighbours, performAction, performActionMut_l, performActionMut_r,
            performActionMut_p, getStack, h0, hst', h1, h2, h3,
            exceptOk_bind, exceptError_bind, exceptPure]

theorem neighbours_some (cs : String → String → Bool) (s : State) (x : String)
    (st : List String) (h0 : s.holding = some x)
    (hst : s.stacks'.get? s.arm = some st) :
    neighbours cs s = .ok
      ((if 0 < s.arm then [⟨{ s with arm := s.arm - 1 }, "l"⟩] else [])
        ++ (if s.arm < s.stacks'.length - 1 then [⟨{ s with arm := s.arm + 1 }, "r"⟩] else [])
        ++ (if 0 < st.length then
              (if cs x (st.getD (st.length - 1) "") then
                [⟨{ s with holding := none,
                           stacks' := s.stacks'.set s.arm (st ++ [x]) }, "d"⟩]
               else [])
            else
              [⟨{ s with holding := none,
                         stacks' := s.stacks'.set s.arm (st ++ [x]) }, "d"⟩])) := by
  have hst' : s.stacks'[s.arm]? = some st := by
    rw [← List.get?_eq_getElem?]; exact hst
  by_cases h1 : 0 < s.arm <;> by_cases h2 : s.arm < s.stacks'.length - 1 <;>
    by_cases h3 : 0 < st.length <;>
      simp [neighbours, performAction, performActionMut_l, performActionMut_r,
            performActionMut_d, getStack, h0, hst', h1, h2, h3,
            exceptOk_bind, exceptError_bind, exceptPure] <;>
        split <;> simp

theorem neighbours_oob (cs : String → String → Bool) (s : State)
    (hst : s.stacks'.get? s.arm = none) :
    neighbours cs s = .error .typeError := by
  have hst' : s.stacks'[s.arm]? = none := by
    rw [← List.get?_eq_getElem?]; exact hst
  cases h0 : s.holding <;>
    by_cases h1 : 0 < s.arm <;> by_cases h2 : s.arm < s.stacks'.length - 1 <;>
      simp [neighbours, performAction, performActionMut_l, performActionMut_r,
            getStack, h0, hst', h1, h2,
            exceptOk_bind, exceptError_bind, exceptPure]

theorem list_set_getElem_self {α : Type} (l : List α) (i : Nat) (h : i < l.length) :
    l.set i l[i] = l := by
  apply List.ext_getElem
  · simp
  · intro n h1 h2
    simp only [List.getElem_set]
    split
    · subst_vars; rfl
    · rfl

theorem getD_ne_nil_lt (l : List (List String)) (i : Nat) (hne : l.getD i [] ≠ []) :
    i < l.length := by
  by_contra hge
  push_neg at hge
  apply hne
  rw [List.getD_eq_getElem?_getD, List.getElem?_eq_none hge]
  rfl

/-- C2: for every SearchState with a valid gripper column, `neighbours`
returns exactly the legal (action, successor) pairs in the fixed order
move-left, move-right, pick-up, put-down: move-left iff `arm > 0`
(decrementing `arm`), move-right iff `arm < numStacks - 1`
(incrementing `arm`), pick-up iff nothing is held and the stack at
`arm` is non-empty (popping its top into `holding`), put-down iff
something is held and the stack at `arm` is empty (floor support) or
the support predicate accepts the pair (pushing the held object and
clearing `holding`). -/
theorem neighbours_exactly_legal_moves_in_order (cs : String → String → Bool)
    (s : State) (st : List String) (hst : s.stacks'.get? s.arm = some st) :
    neighbours cs s = .ok
      ((if 0 < s.arm then [⟨{ s with arm := s.arm - 1 }, "l"⟩] else [])
        ++ (if s.arm < s.stacks'.length - 1 then [⟨{ s with arm := s.arm + 1 }, "r"⟩] else [])
        ++ (match s.holding with
            | none =>
              if st ≠ [] then
                [⟨{ s with holding := st.getLast?,
                           stacks' := s.stacks'.set s.arm st.dropLast }, "p"⟩]
              else []
            | some x =>
              if st = [] ∨ cs x (st.getD (st.length - 1) "") then
                [⟨{ s with holding := none,
                           stacks' := s.stacks'.set s.arm (st ++ [x]) }, "d"⟩]
              else [])) := by
  cases h0 : s.holding with
  | none =>
    rw [neighbours_none cs s st h0 hst]
    by_cases hE : st = [] <;> simp [hE, h0, List.length_pos]
  | some x =>
    rw [neighbours_some cs s x st h0 hst]
    by_cases hE : st = [] <;>
      by_cases hcs : cs x (st.getD (st.length - 1) "") <;>
        simp [hE, hcs, h0, List.length_pos]

/-- Witness for C2 at a concrete state: gripper at column 0 of
`[["a","b"]]`, holding nothing; only pick-up is legal, and it pops
`"b"`. -/
theorem neighbours_exactly_legal_moves_in_order_witness :
    neighbours (fun _ _ => true) ⟨0, none, [["a", "b"]]⟩ =
      .ok [⟨⟨0, some "b", [["a"]]⟩, "p"⟩] := by
  have h := neighbours_exactly_legal_moves_in_order (fun _ _ => true)
    ⟨0, none, [["a", "b"]]⟩ ["a", "b"] rfl
  simpa using h

/-- C7: for each of the four action labels, applied to a SearchState
whose gripper column is valid, `performAction` succeeds with a new
state carrying that label and leaves the input state entirely
unchanged (first component); `cloneState` is a structurally complete
copy. -/
theorem performAction_leaves_input_unchanged (s : State) (a : String)
    (ha : a ∈ (["l", "r", "p", "d"] : List String))
    (_hs : s.arm < s.stacks'.length) :
    cloneState s = s ∧ (performActionMut a s).1 = s ∧
      ∃ nb : Neighb State, (performActionMut a s).2 = .ok nb ∧ nb.action = a := by
  have hc := cloneState_eq s
  simp only [List.mem_cons, List.not_mem_nil, or_false] at ha
  rcases ha with rfl | rfl | rfl | rfl
  · exact ⟨hc, by rw [performActionMut_l], ⟨_, by rw [performActionMut_l], rfl⟩⟩
  · exact ⟨hc, by rw [performActionMut_r], ⟨_, by rw [performActionMut_r], rfl⟩⟩
  · exact ⟨hc, by rw [performActionMut_p], ⟨_, by rw [performActionMut_p], rfl⟩⟩
  · exact ⟨hc, by rw [performActionMut_d], ⟨_, by rw [performActionMut_d], rfl⟩⟩

/-- Witness for C7: pick-up at a one-column world leaves the input
state unchanged. -/
theorem performAction_leaves_input_unchanged_witness :
    cloneState ⟨0, none, [["a"]]⟩ = ⟨0, none, [["a"]]⟩ ∧
      (performActionMut "p" ⟨0, none, [["a"]]⟩).1 = ⟨0, none, [["a"]]⟩ ∧
      ∃ nb : Neighb State,
        (performActionMut "p" ⟨0, none, [["a"]]⟩).2 = .ok nb ∧ nb.action = "p" :=
  performAction_leaves_input_unchanged ⟨0, none, [["a"]]⟩ "p" (by simp) (by simp)

/-- C8: a literal whose relation tag is not `holding`, `inside`,
`ontop` or `above` makes `testAtom` throw a `Planner.Error` whose
message names the offending relation; it is never treated as a
boolean. -/
theorem testAtom_unsupported_relation_errors (s : State) (atom : Literal)
    (h : atom.rel ∉ (["holding", "inside", "ontop", "above"] : List String)) :
    testAtom s atom =
      .error (.plannerError ("!!! Unimplemented relation in testAtom: " ++ atom.rel)) := by
  simp only [List.mem_cons, List.not_mem_nil, or_false, not_or] at h
  obtain ⟨h1, h2, h3, h4⟩ := h
  simp [testAtom, h1, h2, h3, h4]

/-- Witness for C8: the relation `"beside"` is rejected with an error
naming it. -/
theorem testAtom_unsupported_relation_errors_witness :
    testAtom ⟨0, none, [["a"]]⟩ ⟨true, "beside", ["a", "b"]⟩ =
      .error (.plannerError "!!! Unimplemented relation in testAtom: beside") :=
  testAtom_unsupported_relation_errors ⟨0, none, [["a"]]⟩ ⟨true, "beside", ["a", "b"]⟩
    (by simp)

/-- C9: from a state holding nothing whose stack at the gripper column
is non-empty, pick-up followed by put-down at the same column restores
the original state exactly: the stack's contents (and top) and the
gripper (`holding = none`, same `arm`) are as before. -/
theorem pickup_then_putdown_restores_state (s : State) (h0 : s.holding = none)
    (hne : s.stacks'.getD s.arm [] ≠ []) :
    ∃ t : State, performAction "p" s = .ok ⟨t, "p"⟩ ∧
      performAction "d" t = .ok ⟨s, "d"⟩ := by
  have harm : s.arm < s.stacks'.length := getD_ne_nil_lt _ _ hne
  obtain ⟨x, hx⟩ : ∃ x, (s.stacks'.getD s.arm []).getLast? = some x := by
    cases hgl : (s.stacks'.getD s.arm []).getLast? with
    | none => exact absurd (List.getLast?_eq_none_iff.mp hgl) hne
    | some y => exact ⟨y, rfl⟩
  refine ⟨{ s with
            holding := (s.stacks'.getD s.arm []).getLast?,
            stacks' := s.stacks'.set s.arm (s.stacks'.getD s.arm []).dropLast }, ?_, ?_⟩
  · rw [performAction, performActionMut_p]
  · rw [performAction, performActionMut_d]
    have hmem : x ∈ (s.stacks'.getD s.arm []).getLast? := by
      rw [Option.mem_def]; exact hx
    have h1 : ((s.stacks'.set s.arm (s.stacks'.getD s.arm []).dropLast).getD s.arm []) =
        (s.stacks'.getD s.arm []).dropLast := by
      rw [List.getD_eq_getElem?_getD, List.getElem?_set_eq_of_lt _ harm]
      rfl
    have h3 : s.stacks'.getD s.arm [] = s.stacks'[s.arm] := by
      rw [List.getD_eq_getElem?_getD, List.getElem?_eq_getElem harm]
      rfl
    simp only [h1, hx, Option.toList_some]
    rw [List.dropLast_append_getLast? x hmem, List.set_set]
    rw [h3, list_set_getElem_self]
    cases s with
    | mk arm hold stks =>
      simp only at h0
      subst h0
      rfl

/-- Witness for C9 at the state `⟨0, none, [["a","b"]]⟩`. -/
theorem pickup_then_putdown_restores_state_witness :
    ∃ t : State, performAction "p" ⟨0, none, [["a", "b"]]⟩ = .ok ⟨t, "p"⟩ ∧
      performAction "d" t = .ok ⟨(⟨0, none, [["a", "b"]]⟩ : State), "d"⟩ :=
  pickup_then_putdown_restores_state ⟨0, none, [["a", "b"]]⟩ rfl (by simp)

/-- The height-difference algorithm as the spec words it, as a function
of the two resolved operand positions: either operand held gives `-1`;
`above` resolving to the floor raises the domain error rather than
returning a value; `below` on the floor gives `height(above) + 1`; the
same column gives the signed difference `height(above) - height(below)`;
different columns give `-1`. -/
def heightDiffSpec : Position → Position → Except Err Int
  | .held, _ => .ok (-1)
  | _, .held => .ok (-1)
  | .floor, _ =>
    .error (.plannerError "heightDiff: Floor cannot be above anything... Should never happen.")
  | .inCol _ hA, .floor => .ok ((hA : Int) + 1)
  | .inCol sA hA, .inCol sB hB =>
    if sA = sB then .ok ((hA : Int) - (hB : Int)) else .ok (-1)

/-- C3: whenever both operands resolve to positions, `heightDifference`
follows exactly the case analysis the spec describes
(`heightDiffSpec`): held operands give `-1`, a floor `above` raises the
domain error, a floor `below` gives `height(above) + 1`, a shared
column gives the signed difference, and distinct columns give `-1`. -/
theorem heightDifference_follows_spec_cases (s : State) (above below : String)
    (pa pb : Position)
    (ha : Heuristics.computeObjectPosition s above = .ok pa)
    (hb : Heuristics.computeObjectPosition s below = .ok pb) :
    heightDifference s above below = heightDiffSpec pa pb := by
  simp only [heightDifference, ha, hb, exceptOk_bind]
  cases pa <;> cases pb <;> rfl

/-- Witness for C3: in `[["a","b"],["c"]]`, `"b"` sits one level above
`"a"` in the same column. -/
theorem heightDifference_follows_spec_cases_witness :
    heightDifference ⟨0, none, [["a", "b"], ["c"]]⟩ "b" "a" =
      heightDiffSpec (.inCol 0 1) (.inCol 0 0) :=
  heightDifference_follows_spec_cases ⟨0, none, [["a", "b"], ["c"]]⟩ "b" "a"
    (.inCol 0 1) (.inCol 0 0) rfl rfl

theorem testConjunctiveClause_ok_true_iff (s : State) (c : List Literal) :
    testConjunctiveClause s c = .ok true ↔ ∀ a ∈ c, testAtom s a = .ok true := by
  induction c with
  | nil => simp [testConjunctiveClause]
  | cons a rest ih =>
    cases h : testAtom s a with
    | error e =>
      simp [testConjunctiveClause, h, exceptError_bind]
    | ok b =>
      cases b with
      | false =>
        simp [testConjunctiveClause, h, exceptOk_bind, exceptPure]
      | true =>
        simp [testConjunctiveClause, h, exceptOk_bind, ih]

theorem computeGoalFunction_ok_true_iff (s : State) :
    ∀ intprt : List (List Literal),
      (∀ cl ∈ intprt, ∃ b, testConjunctiveClause s cl = .ok b) →
      (computeGoalFunction intprt s = .ok true ↔
        ∃ cl ∈ intprt, testConjunctiveClause s cl = .ok true)
  | [], _ => by simp [computeGoalFunction]
  | c :: rest, hok => by
    obtain ⟨b, hb⟩ := hok c (by simp)
    have ih := computeGoalFunction_ok_true_iff s rest
      (fun cl hcl => hok cl (by simp [hcl]))
    cases b with
    | true =>
      simp only [computeGoalFunction, hb, exceptOk_bind, if_pos, exceptPure]
      constructor
      · intro _
        exact ⟨c, by simp, hb⟩
      · intro _
        trivial
    | false =>
      simp [computeGoalFunction, hb, exceptOk_bind, ih]

/-- C4: `holding(x)` holds iff the held object equals `x`; `ontop` and
`inside` are evaluated identically, holding iff the height difference
is exactly 1; `above` holds iff it is strictly positive; each literal's
raw result is polarity-adjusted; a conjunctive clause holds iff every
literal holds; and when every clause evaluates without error, the
compiled goal predicate holds iff at least one clause holds. -/
theorem goal_relation_evaluation_semantics (s : State) (pol : Bool) (x y : String)
    (c : List Literal) (intprt : List (List Literal))
    (hok : ∀ cl ∈ intprt, ∃ b, testConjunctiveClause s cl = .ok b) :
    testAtom s ⟨pol, "holding", [x]⟩ = .ok (polAdj pol (decide (s.holding = some x)))
    ∧ testAtom s ⟨pol, "ontop", [x, y]⟩ = testAtom s ⟨pol, "inside", [x, y]⟩
    ∧ testAtom s ⟨pol, "ontop", [x, y]⟩ =
        (heightDifference s x y).map (fun d => polAdj pol (decide (d = 1)))
    ∧ testAtom s ⟨pol, "above", [x, y]⟩ =
        (heightDifference s x y).map (fun d => polAdj pol (decide (0 < d)))
    ∧ (testConjunctiveClause s c = .ok true ↔ ∀ a ∈ c, testAtom s a = .ok true)
    ∧ (computeGoalFunction intprt s = .ok true ↔
        ∃ cl ∈ intprt, testConjunctiveClause s cl = .ok true) := by
  refine ⟨rfl, ?_, ?_, ?_, testConjunctiveClause_ok_true_iff s c,
    computeGoalFunction_ok_true_iff s intprt hok⟩
  · cases h : heightDifference s x y <;>
      simp [testAtom, h, exceptOk_bind, exceptError_bind, exceptPure, Except.map]
  · cases h : heightDifference s x y <;>
      simp [testAtom, h, exceptOk_bind, exceptError_bind, exceptPure, Except.map]
  · cases h : heightDifference s x y <;>
      simp [testAtom, h, exceptOk_bind, exceptError_bind, exceptPure, Except.map]

/-- Witness for C4 in the world `[["a","b"]]` with the goal
`[[ontop(b,a)]]`, whose single clause evaluates without error. -/
theorem goal_relation_evaluation_semantics_witness :
    testAtom ⟨0, none, [["a", "b"]]⟩ ⟨true, "holding", ["b"]⟩ =
        .ok (polAdj true (decide ((⟨0, none, [["a", "b"]]⟩ : State).holding = some "b")))
    ∧ testAtom ⟨0, none, [["a", "b"]]⟩ ⟨true, "ontop", ["b", "a"]⟩ =
        testAtom ⟨0, none, [["a", "b"]]⟩ ⟨true, "inside", ["b", "a"]⟩
    ∧ testAtom ⟨0, none, [["a", "b"]]⟩ ⟨true, "ontop", ["b", "a"]⟩ =
        (heightDifference ⟨0, none, [["a", "b"]]⟩ "b" "a").map
          (fun d => polAdj true (decide (d = 1)))
    ∧ testAtom ⟨0, none, [["a", "b"]]⟩ ⟨true, "above", ["b", "a"]⟩ =
        (heightDifference ⟨0, none, [["a", "b"]]⟩ "b" "a").map
          (fun d => polAdj true (decide (0 < d)))
    ∧ (testConjunctiveClause ⟨0, none, [["a", "b"]]⟩ [⟨true, "ontop", ["b", "a"]⟩] = .ok true ↔
        ∀ a ∈ [(⟨true, "ontop", ["b", "a"]⟩ : Literal)],
          testAtom ⟨0, none, [["a", "b"]]⟩ a = .ok true)
    ∧ (computeGoalFunction [[⟨true, "ontop", ["b", "a"]⟩]] ⟨0, none, [["a", "b"]]⟩ = .ok true ↔
        ∃ cl ∈ [[(⟨true, "ontop", ["b", "a"]⟩ : Literal)]],
          testConjunctiveClause ⟨0, none, [["a", "b"]]⟩ cl = .ok true) :=
  goal_relation_evaluation_semantics ⟨0, none, [["a", "b"]]⟩ true "b" "a"
    [⟨true, "ontop", ["b", "a"]⟩] [[⟨true, "ontop", ["b", "a"]⟩]]
    (by
      intro cl hcl
      simp only [List.mem_singleton] at hcl
      subst hcl
      exact ⟨true, rfl⟩)

/-- The record each processed interpretation becomes: its plan field
assigned to the search result. -/
def withPlan (pi : List (List Literal) → Except Err (List String)) (r : IResult) : IResult :=
  { r with plan := (pi r.intp).toOption }

theorem planMutGo_all_ok (pi : List (List Literal) → Except Err (List String)) :
    ∀ l : List IResult, (∀ r ∈ l, ∃ p, pi r.intp = .ok p) →
      planMutGo pi l = (l.map (withPlan pi), .ok (l.map (withPlan pi)))
  | [], _ => rfl
  | r :: rest, hok => by
    obtain ⟨p, hp⟩ := hok r (by simp)
    have ih := planMutGo_all_ok pi rest (fun q hq => hok q (by simp [hq]))
    simp [planMutGo, hp, ih, withPlan, Except.toOption]

theorem planMutGo_first_error (pi : List (List Literal) → Except Err (List String)) :
    ∀ (pre : List IResult) (r : IResult) (rest : List IResult) (e : Err),
      (∀ q ∈ pre, ∃ p, pi q.intp = .ok p) → pi r.intp = .error e →
      (planMutGo pi (pre ++ r :: rest)).2 = .error e
  | [], r, rest, e, _, he => by simp [planMutGo, he]
  | q :: pre, r, rest, e, hok, he => by
    obtain ⟨p, hp⟩ := hok q (by simp)
    have ih := planMutGo_first_error pi pre r rest e
      (fun u hu => hok u (by simp [hu])) he
    simp only [List.cons_append, planMutGo, hp, List.append_eq]
    rw [ih]

theorem planMutGo_ok_inv (pi : List (List Literal) → Except Err (List String)) :
    ∀ (l : List IResult) (out : List IResult),
      (planMutGo pi l).2 = .ok out →
      out = l.map (withPlan pi) ∧ ∀ r ∈ l, ∃ p, pi r.intp = .ok p
  | [], out, h => by
    simp only [planMutGo] at h
    obtain rfl := (Except.ok.injEq _ _).mp h.symm
    simp
  | r :: rest, out, h => by
    cases hp : pi r.intp with
    | error e =>
      simp only [planMutGo, hp] at h
      exact Except.noConfusion h
    | ok p =>
      simp only [planMutGo, hp] at h
      cases hres : (planMutGo pi rest).2 with
      | error e => rw [hres] at h; simp at h
      | ok l =>
        rw [hres] at h
        simp only [Except.ok.injEq] at h
        obtain ⟨hl, hall⟩ := planMutGo_ok_inv pi rest l hres
        subst hl
        refine ⟨by simp [← h, withPlan, hp, Except.toOption], ?_⟩
        intro u hu
        rcases List.mem_cons.mp hu with rfl | hu
        · exact ⟨p, hp⟩
        · exact hall u hu

theorem planMutGo_error_inv (pi : List (List Literal) → Except Err (List String)) :
    ∀ (l : List IResult) (e : Err), (planMutGo pi l).2 = .error e →
      ∃ r ∈ l, pi r.intp = .error e
  | [], e, h => by simp [planMutGo] at h
  | r :: rest, e, h => by
    cases hp : pi r.intp with
    | error e' =>
      simp only [planMutGo, hp, Except.error.injEq] at h
      exact ⟨r, by simp, by rw [hp, h]⟩
    | ok p =>
      simp only [planMutGo, hp] at h
      cases hres : (planMutGo pi rest).2 with
      | error e' =>
        rw [hres] at h
        simp only [Except.error.injEq] at h
        obtain ⟨u, hu, hue⟩ := planMutGo_error_inv pi rest e' hres
        exact ⟨u, by simp [hu], by rw [hue, h]⟩
      | ok l => rw [hres] at h; simp at h

theorem plan_nil (pi : List (List Literal) → Except Err (List String)) :
    plan pi [] = ([], .error (.plannerError "Found no plans")) := rfl

theorem plan_all_ok (pi : List (List Literal) → Except Err (List String))
    (l : List IResult) (hne : l ≠ [])
    (hok : ∀ r ∈ l, ∃ p, pi r.intp = .ok p) :
    plan pi l = (l.map (withPlan pi), .ok (l.map (withPlan pi))) := by
  have h := planMutGo_all_ok pi l hok
  have hlen : (l.map (withPlan pi)).length ≠ 0 := by
    simp only [ne_eq, List.length_map, List.length_eq_zero]
    exact hne
  simp only [plan, h, hlen, ne_eq, not_false_eq_true, if_true]

theorem plan_ok_inv (pi : List (List Literal) → Except Err (List String))
    (l : List IResult) (out : List IResult) (h : (plan pi l).2 = .ok out) :
    out = l.map (withPlan pi) ∧ l ≠ [] ∧ ∀ r ∈ l, ∃ p, pi r.intp = .ok p := by
  cases hres : (planMutGo pi l).2 with
  | error e =>
    simp only [plan, hres] at h
    exact Except.noConfusion h
  | ok plans =>
    simp only [plan, hres] at h
    by_cases hlen : plans.length ≠ 0
    · rw [if_pos hlen] at h
      simp only [Except.ok.injEq] at h
      obtain ⟨hmap, hall⟩ := planMutGo_ok_inv pi l plans hres
      subst h
      refine ⟨hmap, ?_, hall⟩
      intro hnil
      subst hnil
      simp [hmap] at hlen
    · rw [if_neg hlen] at h
      exact Except.noConfusion h

theorem plan_error_inv (pi : List (List Literal) → Except Err (List String))
    (l : List IResult) (e : Err) (hne : l ≠ [])
    (h : (plan pi l).2 = .error e) : ∃ r ∈ l, pi r.intp = .error e := by
  cases hres : (planMutGo pi l).2 with
  | error e' =>
    simp only [plan, hres, Except.error.injEq] at h
    subst h
    exact planMutGo_error_inv pi l e' hres
  | ok plans =>
    simp only [plan, hres] at h
    obtain ⟨hmap, _⟩ := planMutGo_ok_inv pi l plans hres
    have hlen : plans.length ≠ 0 := by
      subst hmap
      simp only [ne_eq, List.length_map, List.length_eq_zero]
      exact hne
    rw [if_pos hlen] at h
    exact Except.noConfusion h

/-- A concrete stand-in for the external per-interpretation search:
the search for the empty interpretation fails, every other search
succeeds with the empty plan. -/
def piMixed : List (List Literal) → Except Err (List String) :=
  fun intp => if intp = [] then .error (.plannerError "search failed") else .ok []

/-- A concrete stand-in for the external per-interpretation search
that always succeeds with the empty plan. -/
def piOk : List (List Literal) → Except Err (List String) := fun _ => .ok []

/-- C1 counterexample: two interpretations, the second of which plans
successfully (`piMixed` returns the empty plan for it), yet `plan`
fails overall with the first interpretation's search failure instead of
returning one result per successful interpretation with the failed one
omitted. -/
theorem plan_failed_interpretation_not_omitted :
    piMixed [[⟨true, "holding", ["a"]⟩]] = .ok []
    ∧ (plan piMixed [⟨[], none⟩, ⟨[[⟨true, "holding", ["a"]⟩]], none⟩]).2 =
        .error (.plannerError "search failed") :=
  ⟨rfl, rfl⟩

/-- C1 (amended): an interpretation whose search fails is not merely
omitted — its failure aborts the whole call, propagating the first
search error even when other interpretations succeed; `plan` returns a
result list exactly when every interpretation's search succeeds, one
record per interpretation in input order, each tagged with its plan;
and the explicit "Found no plans" failure arises only for the empty
interpretations list. -/
theorem plan_propagates_first_search_failure
    (pi : List (List Literal) → Except Err (List String))
    (pre : List IResult) (r : IResult) (rest : List IResult) (e : Err)
    (interps : List IResult)
    (hpre : ∀ q ∈ pre, ∃ p, pi q.intp = .ok p) (he : pi r.intp = .error e)
    (hne : interps ≠ []) (hok : ∀ q ∈ interps, ∃ p, pi q.intp = .ok p) :
    (plan pi (pre ++ r :: rest)).2 = .error e
    ∧ (plan pi interps).2 = .ok (interps.map (withPlan pi))
    ∧ (plan pi []).2 = .error (.plannerError "Found no plans") := by
  refine ⟨?_, by rw [plan_all_ok pi interps hne hok], rfl⟩
  have h := planMutGo_first_error pi pre r rest e hpre he
  simp [plan, h]

/-- Witness for the amended C1: `piMixed` succeeds on the first record,
fails on the second, and the failure aborts the call. -/
theorem plan_propagates_first_search_failure_witness :
    (plan piMixed [⟨[[⟨true, "holding", ["a"]⟩]], none⟩, ⟨[], none⟩]).2 =
        .error (.plannerError "search failed")
    ∧ (plan piMixed [⟨[[⟨true, "holding", ["a"]⟩]], none⟩]).2 =
        .ok ([⟨[[⟨true, "holding", ["a"]⟩]], none⟩].map (withPlan piMixed))
    ∧ (plan piMixed []).2 = .error (.plannerError "Found no plans") :=
  plan_propagates_first_search_failure piMixed
    [⟨[[⟨true, "holding", ["a"]⟩]], none⟩] ⟨[], none⟩ [] (.plannerError "search failed")
    [⟨[[⟨true, "holding", ["a"]⟩]], none⟩]
    (by
      intro q hq
      simp only [List.mem_singleton] at hq
      subst hq
      exact ⟨[], rfl⟩)
    rfl (by simp)
    (by
      intro q hq
      simp only [List.mem_singleton] at hq
      subst hq
      exact ⟨[], rfl⟩)

/-- C6 counterexample: a successful call to `plan` does not leave the
interpretations argument unchanged — the single record's plan field
has been assigned in place. -/
theorem plan_mutates_interpretations_counterexample :
    (plan piOk [⟨[[⟨true, "holding", ["a"]⟩]], none⟩]).1 ≠
      [⟨[[⟨true, "holding", ["a"]⟩]], none⟩] := by
  decide

/-- C6 (amended): `plan` is not side-effect-free on its inputs: it
writes each successfully processed record's plan field through the
input alias, so after a call in which every search succeeds the
interpretations argument holds each original record with its plan
field assigned — and the returned result list consists of exactly
those same (mutated) records. -/
theorem plan_writes_plans_through_input_alias
    (pi : List (List Literal) → Except Err (List String))
    (interps : List IResult)
    (hok : ∀ q ∈ interps, ∃ p, pi q.intp = .ok p) :
    (plan pi interps).1 = interps.map (withPlan pi)
    ∧ (interps ≠ [] → (plan pi interps).2 = .ok ((plan pi interps).1)) := by
  have h := planMutGo_all_ok pi interps hok
  constructor
  · simp [plan, h]
  · intro hne
    have h2 := plan_all_ok pi interps hne hok
    rw [h2]

/-- Witness for the amended C6 at a one-record input. -/
theorem plan_writes_plans_through_input_alias_witness :
    (plan piOk [⟨[[⟨true, "holding", ["a"]⟩]], none⟩]).1 =
        [⟨[[⟨true, "holding", ["a"]⟩]], none⟩].map (withPlan piOk)
    ∧ (([(⟨[[⟨true, "holding", ["a"]⟩]], none⟩ : IResult)]) ≠ [] →
        (plan piOk [⟨[[⟨true, "holding", ["a"]⟩]], none⟩]).2 =
          .ok ((plan piOk [⟨[[⟨true, "holding", ["a"]⟩]], none⟩]).1)) :=
  plan_writes_plans_through_input_alias piOk [⟨[[⟨true, "holding", ["a"]⟩]], none⟩]
    (by
      intro q hq
      simp only [List.mem_singleton] at hq
      subst hq
      exact ⟨[], rfl⟩)

/-- C10: calling `plan` with the empty interpretations list throws
`Planner.Error "Found no plans"`, and that is the only condition under
which `plan` itself raises this error: for a non-empty list, any error
is one produced by an interpretation's own search, and any returned
array has exactly one result record per interpretation, so the
"Found no plans" branch is unreachable. -/
theorem plan_found_no_plans_only_for_empty_input
    (pi : List (List Literal) → Except Err (List String))
    (interps out : List IResult) (e : Err) (hne : interps ≠ []) :
    (plan pi []).2 = .error (.plannerError "Found no plans")
    ∧ ((plan pi interps).2 = .error e → ∃ r ∈ interps, pi r.intp = .error e)
    ∧ ((plan pi interps).2 = .ok out → out.length = interps.length) := by
  refine ⟨rfl, fun h => plan_error_inv pi interps e hne h, fun h => ?_⟩
  obtain ⟨hmap, -, -⟩ := plan_ok_inv pi interps out h
  simp [hmap]

/-- Every object name in a state, in traversal order: the held object
(if any) followed by the stacks' contents, bottom to top, left to
right.  The placement invariant of the spec is that this list has no
duplicates, and a transition loses or duplicates nothing exactly when
it permutes this list. -/
def allObjects (s : State) : List String :=
  s.holding.toList ++ s.stacks'.flatten

theorem flatten_eq_of_get? :
    ∀ (l : List (List String)) (i : Nat) (st : List String), l.get? i = some st →
      l.flatten = (l.take i).flatten ++ (st ++ (l.drop (i + 1)).flatten)
  | [], i, st, h => by simp at h
  | st0 :: rest, 0, st, h => by
    simp only [List.get?] at h
    obtain rfl := Option.some.injEq _ _ ▸ h
    simp
  | st0 :: rest, i + 1, st, h => by
    simp only [List.get?] at h
    have ih := flatten_eq_of_get? rest i st h
    simp [ih, List.append_assoc]

theorem flatten_set_eq :
    ∀ (l : List (List String)) (i : Nat) (st v : List String), l.get? i = some st →
      (l.set i v).flatten = (l.take i).flatten ++ (v ++ (l.drop (i + 1)).flatten)
  | [], i, st, v, h => by simp at h
  | st0 :: rest, 0, st, v, h => by simp
  | st0 :: rest, i + 1, st, v, h => by
    simp only [List.get?] at h
    have ih := flatten_set_eq rest i st v h
    simp [ih, List.append_assoc]

/-- Any successor emitted by `neighbours` carries exactly the same
objects as its parent state: moves touch nothing, pick-up moves the
stack top into the gripper, put-down moves the gripper content onto the
stack. -/
theorem neighbours_perm (cs : String → String → Bool) {s : State}
    {l : List (Neighb State)} {nb : Neighb State}
    (hn : neighbours cs s = .ok l) (hm : nb ∈ l) :
    List.Perm (allObjects nb.state) (allObjects s) := by
  cases hg : s.stacks'.get? s.arm with
  | none =>
    rw [neighbours_oob cs s hg] at hn
    exact Except.noConfusion hn
  | some st =>
    cases h0 : s.holding with
    | none =>
      rw [neighbours_none cs s st h0 hg] at hn
      simp only [Except.ok.injEq] at hn
      subst hn
      rcases List.mem_append.mp hm with hm | hm
      · rcases List.mem_append.mp hm with hm | hm <;>
          · split at hm <;> simp at hm
            subst hm
            simp [allObjects]
      · split at hm <;> simp at hm
        subst hm
        have hne : st ≠ [] := by
          intro hnil
          subst hnil
          simp_all
        obtain ⟨x, hx⟩ : ∃ x, st.getLast? = some x := by
          cases hgl : st.getLast? with
          | none => exact absurd (List.getLast?_eq_none_iff.mp hgl) hne
          | some y => exact ⟨y, rfl⟩
        have hmem : x ∈ st.getLast? := by rw [Option.mem_def]; exact hx
        have hsplit := List.dropLast_append_getLast? x hmem
        simp only [allObjects, h0, hx, Option.toList_some, Option.toList_none,
          List.nil_append, List.singleton_append]
        rw [flatten_set_eq s.stacks' s.arm st st.dropLast hg,
          flatten_eq_of_get? s.stacks' s.arm st hg]
        conv_rhs => rw [← hsplit]
        have e1 : x :: ((s.stacks'.take s.arm).flatten ++
              (st.dropLast ++ (s.stacks'.drop (s.arm + 1)).flatten))
            = x :: (((s.stacks'.take s.arm).flatten ++ st.dropLast) ++
              (s.stacks'.drop (s.arm + 1)).flatten) := by
          rw [List.append_assoc]
        have e2 : (s.stacks'.take s.arm).flatten ++
              ((st.dropLast ++ [x]) ++ (s.stacks'.drop (s.arm + 1)).flatten)
            = ((s.stacks'.take s.arm).flatten ++ st.dropLast) ++
              (x :: (s.stacks'.drop (s.arm + 1)).flatten) := by
          simp [List.append_assoc]
        rw [e1, e2]
        exact List.perm_middle.symm
    | some x =>
      rw [neighbours_some cs s x st h0 hg] at hn
      simp only [Except.ok.injEq] at hn
      subst hn
      rcases List.mem_append.mp hm with hm | hm
      · rcases List.mem_append.mp hm with hm | hm <;>
          · split at hm <;> simp at hm
            subst hm
            simp [allObjects]
      · have hd : nb = ⟨{ s with
              holding := none,
              stacks' := s.stacks'.set s.arm (st ++ [x]) }, "d"⟩ := by
          split at hm
          · split at hm <;> simp at hm
            exact hm
          · simp at hm
            exact hm
        subst hd
        simp only [allObjects, h0, Option.toList_some, Option.toList_none,
          List.nil_append, List.singleton_append]
        rw [flatten_set_eq s.stacks' s.arm st (st ++ [x]) hg,
          flatten_eq_of_get? s.stacks' s.arm st hg]
        have e1 : (s.stacks'.take s.arm).flatten ++
              ((st ++ [x]) ++ (s.stacks'.drop (s.arm + 1)).flatten)
            = ((s.stacks'.take s.arm).flatten ++ st) ++
              (x :: (s.stacks'.drop (s.arm + 1)).flatten) := by
          simp [List.append_assoc]
        have e2 : x :: ((s.stacks'.take s.arm).flatten ++
              (st ++ (s.stacks'.drop (s.arm + 1)).flatten))
            = x :: (((s.stacks'.take s.arm).flatten ++ st) ++
              (s.stacks'.drop (s.arm + 1)).flatten) := by
          rw [List.append_assoc]
        rw [e1, e2]
        exact List.perm_middle

/-- The states reachable from `s` through finitely many transitions
emitted by `neighbours` (with support predicate `cs`). -/
inductive ReachableBy (cs : String → String → Bool) : State → State → Prop where
  | refl (s : State) : ReachableBy cs s s
  | step {s t : State} {l : List (Neighb State)} {nb : Neighb State} :
      ReachableBy cs s t → neighbours cs t = .ok l → nb ∈ l →
      ReachableBy cs s nb.state

/-- C5: every state reachable from a start state satisfying the
placement invariant via any finite sequence of transitions emitted by
`neighbours` holds exactly the same objects (a permutation of the
start's — never lost, never duplicated) with no name repeated, i.e.
each object is either the held one or sits at exactly one position of
exactly one stack. -/
theorem reachable_states_keep_each_object_exactly_once
    (cs : String → String → Bool) (s t : State) (h : ReachableBy cs s t)
    (hinv : (allObjects s).Nodup) :
    (allObjects t).Nodup ∧ List.Perm (allObjects t) (allObjects s) := by
  induction h with
  | refl => exact ⟨hinv, List.Perm.refl _⟩
  | step hr hn hm ih =>
    obtain ⟨hnodup, hperm⟩ := ih
    have hstep := neighbours_perm cs hn hm
    exact ⟨hstep.nodup_iff.mpr hnodup, hstep.trans hperm⟩

/-- Witness for C5: one pick-up step from `⟨0, none, [["a","b"],[]]⟩`
reaches `⟨0, some "b", [["a"],[]]⟩`, which carries the same two objects
with no duplicates. -/
theorem reachable_states_keep_each_object_exactly_once_witness :
    (allObjects ⟨0, some "b", [["a"], []]⟩).Nodup ∧
      List.Perm (allObjects ⟨0, some "b", [["a"], []]⟩)
        (allObjects ⟨0, none, [["a", "b"], []]⟩) :=
  reachable_states_keep_each_object_exactly_once (fun _ _ => true)
    ⟨0, none, [["a", "b"], []]⟩ ⟨0, some "b", [["a"], []]⟩
    (@ReachableBy.step (fun _ _ => true) ⟨0, none, [["a", "b"], []]⟩
      ⟨0, none, [["a", "b"], []]⟩
      [⟨⟨1, none, [["a", "b"], []]⟩, "r"⟩, ⟨⟨0, some "b", [["a"], []]⟩, "p"⟩]
      ⟨⟨0, some "b", [["a"], []]⟩, "p"⟩
      (ReachableBy.refl _) rfl (by simp))
    (by simp [allObjects])

/-- Witness for C10 with `piMixed` over one failing interpretation. -/
theorem plan_found_no_plans_only_for_empty_input_witness :
    (plan piMixed []).2 = .error (.plannerError "Found no plans")
    ∧ ((plan piMixed [⟨[], none⟩]).2 = .error (.plannerError "search failed") →
        ∃ r ∈ [(⟨[], none⟩ : IResult)], piMixed r.intp = .error (.plannerError "search failed"))
    ∧ ((plan piMixed [⟨[], none⟩]).2 = .ok [] → ([] : List IResult).length =
        [(⟨[], none⟩ : IResult)].length) :=
  plan_found_no_plans_only_for_empty_input piMixed [⟨[], none⟩] [] (.plannerError "search failed")
    (by simp)

end Planner
